import Mathlib

/-!
Verification development for the elevator-dispatch controller and the HR
random-data sampler of the `cencosud` repository.

The Python sources (`question_2/call.py`, `question_2/elevator.py`,
`question_1/random_generator.py`) are shallowly embedded below: each pydantic
model becomes a structure, each method a pure function on it, mutation becomes
explicit state passing.  Timestamps and durations (`datetime`/`timedelta`) are
modelled as integers (seconds); dates in the HR sampler as integers (days).
Floors are integers: the pydantic `PositiveInt` validator constrains values at
construction time only (assignments such as `update_position` are not
re-validated by pydantic v1 in its default configuration).
-/

namespace Cencosud

/-- Embeds `Call` (question_2/call.py).  `call_type` ranges over `"in"`/`"out"`
and `sense` over `"upward"`/`"downward"` (pydantic regex validators); `floor`
is a `PositiveInt` at construction. -/
structure Call where
  call_type : String
  floor : Int
  sense : String
  not_attended : Bool := true
  timestamp : Option Int := none
  elevator_id : Option Nat := none
deriving DecidableEq

/-- Embeds `Call.__call__`: the single-shot attend latch.  If `not_attended`,
record the timestamp and clear the flag; otherwise do nothing. -/
def Call.attend (c : Call) (timestamp : Int) : Call :=
  if c.not_attended then { c with timestamp := some timestamp, not_attended := false }
  else c

/-- Embeds `Call.__eq__`: compares every field except `not_attended`. -/
def Call.eqPy (c other : Call) : Bool :=
  c.call_type == other.call_type &&
  c.floor == other.floor &&
  c.sense == other.sense &&
  c.timestamp == other.timestamp &&
  c.elevator_id == other.elevator_id

/-- Embeds `ElevatorQueue` (question_2/elevator.py). -/
structure ElevatorQueue where
  is_empty : Bool := true
  calls : List Call := []
deriving DecidableEq

/-- Embeds `ElevatorQueue.__eq__`:
`all(sc == oc for sc, oc in zip(self.calls, other.calls))`.
Note that `zip` truncates to the shorter of the two lists. -/
def ElevatorQueue.eqPy (q other : ElevatorQueue) : Bool :=
  (q.calls.zip other.calls).all fun p => Call.eqPy p.1 p.2

/-- The comparator realising `calls.sort(key=lambda x: x.floor, reverse=reverse)`:
`callLe reverse a b` is true when `a` may stay to the left of `b`. -/
def callLe (reverse : Bool) (a b : Call) : Bool :=
  if reverse then decide (b.floor ≤ a.floor) else decide (a.floor ≤ b.floor)

/-- Stable insertion of a call into a list already ordered by `le`: the new
call goes after every element `x` with `le x c`, which matches the placement
produced by the stable sort of CPython for the element arriving last. -/
def insertCall (le : Call → Call → Bool) (c : Call) : List Call → List Call
  | [] => [c]
  | x :: xs => if le x c then x :: insertCall le c xs else c :: x :: xs

/-- Stable insertion sort by `le`: an executable model of the stable
`list.sort` of CPython. -/
def sortCalls (le : Call → Call → Bool) (l : List Call) : List Call :=
  l.foldl (fun acc c => insertCall le c acc) []

/-- Embeds `ElevatorQueue.sort`: sort the pending calls by `floor`,
descending when `reverse` is true, ascending otherwise. -/
def ElevatorQueue.sort (q : ElevatorQueue) (reverse : Bool) : ElevatorQueue :=
  { q with calls := sortCalls (callLe reverse) q.calls }

/-- Embeds `ElevatorQueue.append`: push, sort (descending exactly when the
incoming call sense is `"upward"`), and clear `is_empty`. -/
def ElevatorQueue.append (q : ElevatorQueue) (call : Call) : ElevatorQueue :=
  let reverse := call.sense == "upward"
  let q1 : ElevatorQueue := { q with calls := q.calls ++ [call] }
  let q2 := q1.sort reverse
  { q2 with is_empty := false }

/-- Embeds `ElevatorQueue.pop`: remove and return the last element of
`calls`; set `is_empty` when the list becomes empty.  Python raises
`IndexError` on an empty list, modelled by the `none` result (every caller in
the source guards on `is_empty` first). -/
def ElevatorQueue.pop (q : ElevatorQueue) : Option Call × ElevatorQueue :=
  match q.calls.getLast? with
  | none => (none, q)
  | some call =>
    let calls := q.calls.dropLast
    (some call,
     { q with calls := calls, is_empty := if calls.isEmpty then true else q.is_empty })

/-- Embeds `Elevator` (question_2/elevator.py).  `wait` is the grace period in
seconds; the `timestamp` field is declared in the source but never assigned by
any method. -/
structure Elevator where
  elevator_id : Nat
  floor : Int := 1
  sense : String := ""
  queue : ElevatorQueue := {}
  wait : Int := 10
  timestamp : Option Int := none
deriving DecidableEq

/-- Embeds `Elevator.__eq__`.  Note that the source compares
`self.wait == self.wait` (the wait of `other` is never read). -/
def Elevator.eqPy (e other : Elevator) : Bool :=
  e.elevator_id == other.elevator_id &&
  e.floor == other.floor &&
  e.sense == other.sense &&
  ElevatorQueue.eqPy e.queue other.queue &&
  e.wait == e.wait &&
  e.timestamp == other.timestamp

/-- Embeds `Elevator.is_available_to_take_in_call`: false on an empty queue,
otherwise the elevator must be the one named by the call and the sense of the
tail call must equal the sense of the incoming call. -/
def Elevator.is_available_to_take_in_call (e : Elevator) (call : Call) : Bool :=
  if e.queue.is_empty then false
  else
    match e.queue.calls.getLast? with
    | none => false
    | some last_call =>
      some e.elevator_id == call.elevator_id && last_call.sense == call.sense

/-- Embeds `Elevator.is_available_to_take_out_call`.  In Python `and` binds
tighter than `or`, so the source expression groups as
`(sense == call.sense and (sense == "upward" and floor <= call.floor)) or
(sense == "downward" and floor >= call.floor)`: the sense-equality conjunct
guards only the upward branch. -/
def Elevator.is_available_to_take_out_call (e : Elevator) (call : Call) : Bool :=
  if e.queue.is_empty then true
  else
    (e.sense == call.sense && (e.sense == "upward" && decide (e.floor ≤ call.floor))) ||
    (e.sense == "downward" && decide (e.floor ≥ call.floor))

/-- Embeds `Elevator.is_available_to_take_call`: dispatch on `call_type`. -/
def Elevator.is_available_to_take_call (e : Elevator) (call : Call) : Bool :=
  if call.call_type == "in" then e.is_available_to_take_in_call call
  else e.is_available_to_take_out_call call

/-- Embeds `Elevator.remove_answered_calls`: recursively pop the tail while
the cabin has reached or passed its floor along the current sense; unset the
sense when the queue is empty.  The inner `none` branch is unreachable when
`is_empty` is consistent with `calls` (the source indexes `calls[-1]`). -/
def Elevator.remove_answered_calls (e : Elevator) : Elevator :=
  if e.queue.is_empty then { e with sense := "" }
  else
    match h : e.queue.calls.getLast? with
    | none => e
    | some last_call =>
      let is_answered :=
        (e.sense == "upward" && decide (e.floor ≥ last_call.floor)) ||
        (e.sense == "downward" && decide (e.floor ≤ last_call.floor))
      if is_answered then
        Elevator.remove_answered_calls { e with queue := (e.queue.pop).2 }
      else e
termination_by e.queue.calls.length
decreasing_by
  have hne : e.queue.calls ≠ [] := by
    intro hnil
    rw [hnil] at h
    simp at h
  simp only [ElevatorQueue.pop, h, List.length_dropLast]
  have hpos : 0 < e.queue.calls.length := List.length_pos.mpr hne
  omega

/-- Embeds `Elevator.take_call` (admission is not re-checked here): for an
`"in"` call first reclaim answered calls, then point the sense at the call
floor and append. -/
def Elevator.take_call (e : Elevator) (call : Call) : Elevator :=
  let e1 := if call.call_type == "in" then e.remove_answered_calls else e
  let e2 : Elevator :=
    { e1 with sense := if e1.floor ≤ call.floor then "upward" else "downward" }
  { e2 with queue := e2.queue.append call }

/-- Embeds `Elevator.update_position`.  The Python statement
`last_call(timestamp)` mutates the tail call in place, so the subsequent
eviction test reads the updated `not_attended`/`timestamp` fields; the
mutation is modelled by rebuilding the list with the updated tail.
`timestamp.getD 0` stands for the field access `last_call.timestamp`, which in
the source is only reached once the call has been attended (and hence
stamped). -/
def Elevator.update_position (e : Elevator) (position : Int) (timestamp : Int) : Elevator :=
  let e1 : Elevator := { e with floor := position }
  if e1.queue.is_empty then e1
  else
    match e1.queue.calls.getLast? with
    | none => e1
    | some tail0 =>
      let last_call := if e1.floor == tail0.floor then tail0.attend timestamp else tail0
      let e2 : Elevator :=
        { e1 with queue :=
          { e1.queue with calls := e1.queue.calls.dropLast ++ [last_call] } }
      if !last_call.not_attended &&
          (last_call.call_type == "in" ||
            decide (e2.wait < timestamp - last_call.timestamp.getD 0)) then
        e2.remove_answered_calls
      else e2

/-- Embeds `ElevatorSystem` (question_2/elevator.py). -/
structure ElevatorSystem where
  n_elevators : Nat
  n_floors : Int
  wait : Int := 10
  elevators : List Elevator := []
  queue : ElevatorQueue := {}
deriving DecidableEq

/-- Embeds `ElevatorSystem.__init__`: build one elevator per id in
`range(n_elevators)`, all at floor 1, idle, with an empty queue and the shared
wait. -/
def mkElevatorSystem (n_elevators : Nat) (n_floors : Int) (wait : Int) : ElevatorSystem :=
  { n_elevators := n_elevators
    n_floors := n_floors
    wait := wait
    elevators := (List.range n_elevators).map fun elevator_id =>
      { elevator_id := elevator_id, wait := wait }
    queue := {} }

/-- Embeds `ElevatorSystem.get_elevators_available`: collect, in index order,
the elevators whose admission predicate accepts the call. -/
def ElevatorSystem.get_elevators_available (sys : ElevatorSystem) (call : Call) : List Elevator :=
  sys.elevators.filter fun elevator => elevator.is_available_to_take_call call

/-- Embeds `ElevatorSystem.get_nearest_elevator`: a scan keeping the current
best, starting from threshold `n_floors` and the first element.  Python
`elevators[0]` raises on an empty list; modelled with `headD`. -/
def ElevatorSystem.get_nearest_elevator (sys : ElevatorSystem)
    (elevators : List Elevator) (call : Call) : Elevator :=
  (elevators.foldl
    (fun acc elevator =>
      let distance : Int := |elevator.floor - call.floor|
      if distance < acc.1 then (distance, elevator) else acc)
    (sys.n_floors, elevators.headD { elevator_id := 0 })).2

/-- Embeds `ElevatorSystem.take_call`: delegate to the nearest available
elevator, or push the call to the system backlog.  Python mutates the chosen
elevator object in place; elevator ids are unique by construction, so the
in-place update is modelled by replacing the elevator carrying that id. -/
def ElevatorSystem.take_call (sys : ElevatorSystem) (call : Call) : ElevatorSystem :=
  let avail := sys.get_elevators_available call
  if avail.isEmpty then { sys with queue := sys.queue.append call }
  else
    let nearest_elevator := sys.get_nearest_elevator avail call
    let updated := nearest_elevator.take_call call
    { sys with elevators := sys.elevators.map fun e =>
        if e.elevator_id == nearest_elevator.elevator_id then updated else e }

/-- Embeds `ElevatorSystem.update_state`.  The source loops
`for elevator_id in range(self.n_elevators)` over a list of exactly
`n_elevators` elevators whose list index equals their id, updating each
position; modelled with `mapIdx`.  Then at most one backlog call is popped and
re-routed. -/
def ElevatorSystem.update_state (sys : ElevatorSystem)
    (state : Nat → Int) (timestamp : Int) : ElevatorSystem :=
  let sys1 : ElevatorSystem :=
    { sys with elevators :=
      sys.elevators.mapIdx fun i e => e.update_position (state i) timestamp }
  if sys1.queue.is_empty then sys1
  else
    match sys1.queue.pop with
    | (some call, q) => ElevatorSystem.take_call { sys1 with queue := q } call
    | (none, q) => { sys1 with queue := q }

/-- A request as consumed by `ElevatorSystem.take_request`: the authoritative
positions of all cabins, the tick timestamp, and an optional call. -/
structure Request where
  timestamp : Int
  state : Nat → Int
  call : Option Call := none

/-- Embeds `ElevatorSystem.take_request`: apply the state tick first, then,
when a call is present, raise `ValueError` if its floor exceeds `n_floors`
and otherwise route it.  The Python method mutates `self` and lets the
exception propagate, so the model returns the (possibly mutated) system
together with `some message` when the error is raised. -/
def ElevatorSystem.take_request (sys : ElevatorSystem) (request : Request) :
    ElevatorSystem × Option String :=
  let sys1 := sys.update_state request.state request.timestamp
  match request.call with
  | none => (sys1, none)
  | some call =>
    if call.floor > sys1.n_floors then
      (sys1, some "Call can not come from a floor greather than n_floors")
    else (sys1.take_call call, none)

/-- States reachable from `ElevatorSystem` construction by any sequence of
`take_request` operations.  A request that ends in the `ValueError` still
counts as a step: the mutations preceding the raise have happened. -/
inductive Reachable : ElevatorSystem → Prop where
  | init (n_elevators : Nat) (n_floors wait : Int) :
      0 < n_elevators → 0 < n_floors →
      Reachable (mkElevatorSystem n_elevators n_floors wait)
  | step (sys : ElevatorSystem) (request : Request) :
      Reachable sys → Reachable (sys.take_request request).1

/-- The flag `is_empty` agrees with the stored list of calls (spec data-model
invariant; maintained by every queue operation of the source). -/
def QueueConsistent (q : ElevatorQueue) : Prop :=
  q.is_empty = q.calls.isEmpty

/-- Every elevator keeps its queue flag consistent, and a non-empty queue
implies a committed travel sense. -/
def ElevatorInv (e : Elevator) : Prop :=
  QueueConsistent e.queue ∧
  (e.queue.calls ≠ [] → e.sense = "upward" ∨ e.sense = "downward")

/-- System-wide invariant: the backlog flag is consistent and every elevator
satisfies `ElevatorInv`. -/
def SystemInv (sys : ElevatorSystem) : Prop :=
  QueueConsistent sys.queue ∧ ∀ e ∈ sys.elevators, ElevatorInv e

/-- The fields of a `personas` row consumed by `_sample_conyuges`
(question_1/random_generator.py): birth date and optional death date, as day
numbers.  `defuncion = none` models the `None` that `_sample_death_date`
produces when the drawn death exceeds `max_date`. -/
structure Persona where
  nacimiento : Int
  defuncion : Option Int := none
deriving DecidableEq

/-- Embeds `HumanResourcesGenerator._sample_date` at day granularity: the
source draws `days` uniformly from `[0, (max_date - min_date).days]` (the
seconds and microseconds components of the delta between two dates are zero)
and returns `min_date + days`; the PRNG draw is passed explicitly. -/
def sample_date (min_date : Int) (draw : Int) : Int := min_date + draw

/-- Embeds `HumanResourcesGenerator._sample_celebration_date`: the start is
the later birth plus 18*365 days; the end is `max_date` when both deaths are
missing, the present death when exactly one is, and the earlier death when
both are; a celebration is drawn only when the start is strictly before the
end, otherwise `None`. -/
def sample_celebration_date (persona_1 persona_2 : Persona)
    (max_date : Int) (draw : Int) : Option Int :=
  let start_date := max persona_1.nacimiento persona_2.nacimiento + 18 * 365
  let end_date :=
    match persona_1.defuncion, persona_2.defuncion with
    | none, none => max_date
    | some d1, none => d1
    | none, some d2 => d2
    | some d1, some d2 => min d1 d2
  if start_date < end_date then some (sample_date start_date draw) else none

/-- Embeds the acceptance test of `HumanResourcesGenerator._sample_conyuges`:
the candidate pair is kept iff `row["celebracion"]` is truthy, i.e. the
sampled celebration is not `None` (a nonempty date string is always truthy). -/
def conyuge_accepted (persona_1 persona_2 : Persona)
    (max_date : Int) (draw : Int) : Bool :=
  (sample_celebration_date persona_1 persona_2 max_date draw).isSome

/-- Follows the words of the claim: the feasibility window opens at the later
of the two birth dates plus 18 years. -/
def window_start (persona_1 persona_2 : Persona) : Int :=
  max persona_1.nacimiento persona_2.nacimiento + 18 * 365

/-- Follows the words of the claim: the feasibility window closes at the
earliest of the two death dates and `max_date`, ignoring missing deaths. -/
def window_end (persona_1 persona_2 : Persona) (max_date : Int) : Int :=
  min (min (persona_1.defuncion.getD max_date) (persona_2.defuncion.getD max_date))
    max_date

/-! Concrete values used by counterexamples and witnesses. -/

/-- A fresh one-elevator system serving ten floors. -/
def demoSys0 : ElevatorSystem := mkElevatorSystem 1 10 10

/-- First demo request: cabin reported at floor 5, hall call at floor 3 whose
passenger intends to travel upward. -/
def demoReq1 : Request :=
  { timestamp := 0, state := fun _ => 5,
    call := some { call_type := "out", floor := 3, sense := "upward" } }

/-- The system after `demoReq1`. -/
def demoSys1 : ElevatorSystem := (demoSys0.take_request demoReq1).1

/-- Second demo request: cabin still at floor 5, hall call at floor 5 with
downward sense. -/
def demoReq2 : Request :=
  { timestamp := 1, state := fun _ => 5,
    call := some { call_type := "out", floor := 5, sense := "downward" } }

/-- The system after `demoReq1` then `demoReq2`. -/
def demoSys2 : ElevatorSystem := (demoSys1.take_request demoReq2).1

/-- A request whose call floor (100) exceeds the ten floors of `demoSys0` and
whose state tick moves the cabin to floor 3. -/
def demoReqC3 : Request :=
  { timestamp := 0, state := fun _ => 3,
    call := some { call_type := "out", floor := 100, sense := "upward" } }

/-- An elevator moving downward at floor 5 with one pending downward call. -/
def demoElevDown : Elevator :=
  { elevator_id := 0, floor := 5, sense := "downward",
    queue := { is_empty := false,
               calls := [{ call_type := "out", floor := 9, sense := "downward" }] } }

/-- An upward hall call at floor 3. -/
def demoCallUp3 : Call := { call_type := "out", floor := 3, sense := "upward" }

/-- A one-elevator system serving five floors (only `n_floors` matters to
`get_nearest_elevator`). -/
def demoSysC5 : ElevatorSystem := mkElevatorSystem 1 5 10

/-- A candidate elevator at floor 100. -/
def demoElevA : Elevator := { elevator_id := 0, floor := 100 }

/-- A candidate elevator at floor 50. -/
def demoElevB : Elevator := { elevator_id := 1, floor := 50 }

/-- An upward hall call at floor 1. -/
def demoCallC5 : Call := { call_type := "out", floor := 1, sense := "upward" }

/-- An elevator moving upward at floor 4 whose queue holds an upward call. -/
def demoElevC6 : Elevator :=
  { elevator_id := 2, floor := 4, sense := "upward",
    queue := { is_empty := false,
               calls := [{ call_type := "out", floor := 6, sense := "upward" }] } }

/-- An in-cabin call bound to elevator 2, upward to floor 8. -/
def demoCallC6 : Call :=
  { call_type := "in", floor := 8, sense := "upward", elevator_id := some 2 }

/-- An elevator at floor 1 with one pending unattended out-call at floor 5. -/
def demoElevC7 : Elevator :=
  { elevator_id := 0, floor := 1, sense := "upward",
    queue := { is_empty := false,
               calls := [{ call_type := "out", floor := 5, sense := "upward" }] } }

/-- A candidate elevator at floor 2 (distance 1 from floor 3). -/
def demoElevNear : Elevator := { elevator_id := 0, floor := 2 }

/-- A candidate elevator at floor 4 (distance 1 from floor 3, tied with
`demoElevNear`). -/
def demoElevFar : Elevator := { elevator_id := 1, floor := 4 }

/-- An upward hall call at floor 4. -/
def demoUpCall : Call := { call_type := "out", floor := 4, sense := "upward" }

end Cencosud

namespace Cencosud

/-! ### Sorting lemmas -/

theorem insertCall_perm (le : Call → Call → Bool) (c : Call) (l : List Call) :
    (insertCall le c l).Perm (c :: l) := by
  induction l with
  | nil => simp [insertCall]
  | cons x xs ih =>
    simp only [insertCall]
    split
    · exact (ih.cons x).trans (List.Perm.swap c x xs)
    · exact List.Perm.refl _

theorem foldl_insertCall_perm (le : Call → Call → Bool) (l acc : List Call) :
    (l.foldl (fun acc c => insertCall le c acc) acc).Perm (l ++ acc) := by
  induction l generalizing acc with
  | nil => simp
  | cons x xs ih =>
    simp only [List.foldl_cons, List.cons_append]
    have h1 := ih (insertCall le x acc)
    have h2 : (xs ++ insertCall le x acc).Perm (xs ++ (x :: acc)) :=
      List.Perm.append_left xs (insertCall_perm le x acc)
    have h3 : (xs ++ (x :: acc)).Perm (x :: (xs ++ acc)) := List.perm_middle
    exact (h1.trans h2).trans h3

theorem sortCalls_perm (le : Call → Call → Bool) (l : List Call) :
    (sortCalls le l).Perm l := by
  have h := foldl_insertCall_perm le l []
  simpa [sortCalls] using h

theorem insertCall_pairwise (le : Call → Call → Bool)
    (htrans : ∀ a b c, le a b = true → le b c = true → le a c = true)
    (htot : ∀ a b, le a b = true ∨ le b a = true) (c : Call) (l : List Call)
    (hl : l.Pairwise fun a b => le a b = true) :
    (insertCall le c l).Pairwise fun a b => le a b = true := by
  induction l with
  | nil => simp [insertCall]
  | cons x xs ih =>
    rcases List.pairwise_cons.mp hl with ⟨hx, hxs⟩
    simp only [insertCall]
    split
    case isTrue h =>
      refine List.pairwise_cons.mpr ⟨?_, ih hxs⟩
      intro b hb
      rcases List.mem_cons.mp ((insertCall_perm le c xs).mem_iff.mp hb) with hbc | hbxs
      · exact hbc ▸ h
      · exact hx b hbxs
    case isFalse h =>
      have hcx : le c x = true := by
        rcases htot c x with h1 | h1
        · exact h1
        · exact absurd h1 (by simpa using h)
      refine List.pairwise_cons.mpr ⟨?_, hl⟩
      intro b hb
      rcases List.mem_cons.mp hb with rfl | hbxs
      · exact hcx
      · exact htrans c x b hcx (hx b hbxs)

theorem foldl_insertCall_pairwise (le : Call → Call → Bool)
    (htrans : ∀ a b c, le a b = true → le b c = true → le a c = true)
    (htot : ∀ a b, le a b = true ∨ le b a = true) (l acc : List Call)
    (hacc : acc.Pairwise fun a b => le a b = true) :
    (l.foldl (fun acc c => insertCall le c acc) acc).Pairwise
      (fun a b => le a b = true) := by
  induction l generalizing acc with
  | nil => exact hacc
  | cons x xs ih => exact ih _ (insertCall_pairwise le htrans htot x acc hacc)

theorem sortCalls_pairwise (le : Call → Call → Bool)
    (htrans : ∀ a b c, le a b = true → le b c = true → le a c = true)
    (htot : ∀ a b, le a b = true ∨ le b a = true) (l : List Call) :
    (sortCalls le l).Pairwise (fun a b => le a b = true) :=
  foldl_insertCall_pairwise le htrans htot l [] List.Pairwise.nil

theorem callLe_trans (reverse : Bool) :
    ∀ a b c, callLe reverse a b = true → callLe reverse b c = true →
      callLe reverse a c = true := by
  intro a b c h1 h2
  cases reverse <;> simp [callLe] at h1 h2 ⊢ <;> omega

theorem callLe_total (reverse : Bool) :
    ∀ a b, callLe reverse a b = true ∨ callLe reverse b a = true := by
  intro a b
  cases reverse <;> simp [callLe] <;> omega

/-! ### Queue lemmas -/

theorem append_calls_length (q : ElevatorQueue) (call : Call) :
    (q.append call).calls.length = q.calls.length + 1 := by
  simp [ElevatorQueue.append, ElevatorQueue.sort, (sortCalls_perm _ _).length_eq]

theorem append_calls_ne_nil (q : ElevatorQueue) (call : Call) :
    (q.append call).calls ≠ [] := by
  have h := append_calls_length q call
  intro hnil
  rw [hnil] at h
  simp at h

theorem append_consistent (q : ElevatorQueue) (call : Call) :
    QueueConsistent (q.append call) := by
  unfold QueueConsistent
  have h1 : (q.append call).is_empty = false := rfl
  have h2 : (q.append call).calls.isEmpty = false :=
    List.isEmpty_eq_false.mpr (append_calls_ne_nil q call)
  rw [h1, h2]

theorem pop_consistent (q : ElevatorQueue) (h : QueueConsistent q) :
    QueueConsistent (q.pop).2 := by
  unfold QueueConsistent at *
  unfold ElevatorQueue.pop
  cases hq : q.calls.getLast? with
  | none => simpa using h
  | some c =>
    have hne : q.calls ≠ [] := by
      intro hnil
      rw [hnil] at hq
      simp at hq
    cases hd : q.calls.dropLast.isEmpty <;>
      simp [hd, h, List.isEmpty_eq_false.mpr hne]

end Cencosud

namespace Cencosud

/-! ### Lemmas about `Elevator.remove_answered_calls` -/

theorem remove_answered_calls_spec (e : Elevator) :
    (e.remove_answered_calls).floor = e.floor ∧
    (QueueConsistent e.queue → QueueConsistent (e.remove_answered_calls).queue) ∧
    (QueueConsistent e.queue → (e.remove_answered_calls).queue.calls ≠ [] →
      (e.remove_answered_calls).sense = e.sense) ∧
    ((e.remove_answered_calls).queue.calls ≠ [] → e.queue.calls ≠ []) := by
  generalize hn : e.queue.calls.length = n
  induction n using Nat.strong_induction_on generalizing e with
  | _ n ih =>
    rw [Elevator.remove_answered_calls]
    split
    case isTrue hq =>
      refine ⟨rfl, fun hc => hc, fun hc hne => ?_, fun hne => hne⟩
      have h1 : e.queue.calls.isEmpty = true := by rw [← hc]; exact hq
      exact absurd (List.isEmpty_iff.mp h1) hne
    case isFalse hq =>
      split
      case _ heq => exact ⟨rfl, fun hc => hc, fun _ _ => rfl, fun hne => hne⟩
      case _ last_call heq =>
        have hne : e.queue.calls ≠ [] := by
          intro hnil
          rw [hnil] at heq
          simp at heq
        dsimp only
        split
        case isTrue hans =>
          have hpop : ((e.queue.pop).2).calls = e.queue.calls.dropLast := by
            simp [ElevatorQueue.pop, heq]
          have hlen : ((e.queue.pop).2).calls.length < n := by
            rw [hpop, List.length_dropLast]
            have : 0 < e.queue.calls.length := List.length_pos.mpr hne
            omega
          have spec :=
            ih _ hlen { e with queue := (e.queue.pop).2 } rfl
          refine ⟨spec.1, fun hc => spec.2.1 (pop_consistent _ hc),
            fun hc hne2 => spec.2.2.1 (pop_consistent _ hc) hne2,
            fun _ => hne⟩
        case isFalse hans => exact ⟨rfl, fun hc => hc, fun _ _ => rfl, fun hne2 => hne2⟩

theorem rac_inv (e : Elevator) (h : ElevatorInv e) :
    ElevatorInv e.remove_answered_calls := by
  obtain ⟨hc, hs⟩ := h
  obtain ⟨-, hcons, hsense, hpre⟩ := remove_answered_calls_spec e
  refine ⟨hcons hc, fun hne => ?_⟩
  rw [hsense hc hne]
  exact hs (hpre hne)

/-! ### Invariant preservation -/

theorem take_call_queue (e : Elevator) (call : Call) :
    (e.take_call call).queue =
      ((if call.call_type == "in" then e.remove_answered_calls else e).queue).append
        call := rfl

theorem take_call_sense (e : Elevator) (call : Call) :
    (e.take_call call).sense =
      (if (if call.call_type == "in" then e.remove_answered_calls else e).floor ≤
          call.floor then "upward" else "downward") := rfl

theorem take_call_inv (e : Elevator) (call : Call) : ElevatorInv (e.take_call call) := by
  refine ⟨?_, fun _ => ?_⟩
  · rw [take_call_queue]
    exact append_consistent _ _
  · rw [take_call_sense]
    split <;> split <;> (first | exact Or.inl rfl | exact Or.inr rfl)

theorem elevator_with_tail_inv (e : Elevator) (position : Int) (c : Call)
    (hc : QueueConsistent e.queue) (hne : e.queue.calls ≠ [])
    (hs : e.queue.calls ≠ [] → e.sense = "upward" ∨ e.sense = "downward") :
    ElevatorInv
      { e with
        floor := position
        queue := { e.queue with calls := e.queue.calls.dropLast ++ [c] } } := by
  refine ⟨?_, fun _ => hs hne⟩
  show e.queue.is_empty = (e.queue.calls.dropLast ++ [c]).isEmpty
  rw [hc, List.isEmpty_eq_false.mpr hne]
  symm
  exact List.isEmpty_eq_false.mpr (by simp)

theorem update_position_inv (e : Elevator) (position timestamp : Int)
    (h : ElevatorInv e) : ElevatorInv (e.update_position position timestamp) := by
  obtain ⟨hc, hs⟩ := h
  unfold Elevator.update_position
  dsimp only
  split
  case isTrue hq => exact ⟨hc, fun hne => hs hne⟩
  case isFalse hq =>
    split
    case _ heq => exact ⟨hc, fun hne => hs hne⟩
    case _ tail0 heq =>
      have hne : e.queue.calls ≠ [] := by
        intro hnil
        rw [hnil] at heq
        simp at heq
      have hbase : ∀ c : Call, ElevatorInv
          { e with
            floor := position
            queue := { e.queue with calls := e.queue.calls.dropLast ++ [c] } } :=
        fun c => elevator_with_tail_inv e position c hc hne hs
      split <;> split <;>
        (first | exact rac_inv _ (hbase _) | exact hbase _)

theorem sys_take_call_inv (sys : ElevatorSystem) (call : Call)
    (h : SystemInv sys) : SystemInv (sys.take_call call) := by
  obtain ⟨hq, he⟩ := h
  unfold ElevatorSystem.take_call
  dsimp only
  split
  · exact ⟨append_consistent _ _, he⟩
  · refine ⟨hq, ?_⟩
    intro e hmem
    rw [List.mem_map] at hmem
    obtain ⟨e0, he0, rfl⟩ := hmem
    split
    · exact take_call_inv _ _
    · exact he e0 he0

theorem update_state_inv (sys : ElevatorSystem) (state : Nat → Int)
    (timestamp : Int) (h : SystemInv sys) :
    SystemInv (sys.update_state state timestamp) := by
  obtain ⟨hq, he⟩ := h
  unfold ElevatorSystem.update_state
  dsimp only
  have he1 : ∀ e ∈ (sys.elevators.mapIdx fun i e =>
      e.update_position (state i) timestamp), ElevatorInv e := by
    intro e hmem
    rw [List.mem_mapIdx] at hmem
    obtain ⟨i, hi, rfl⟩ := hmem
    exact update_position_inv _ _ _ (he _ (List.getElem_mem hi))
  split
  · exact ⟨hq, he1⟩
  · split
    case _ call q heq =>
      apply sys_take_call_inv
      refine ⟨?_, he1⟩
      have hp := pop_consistent sys.queue hq
      rw [heq] at hp
      exact hp
    case _ q heq =>
      refine ⟨?_, he1⟩
      have hp := pop_consistent sys.queue hq
      rw [heq] at hp
      exact hp

theorem take_request_inv (sys : ElevatorSystem) (request : Request)
    (h : SystemInv sys) : SystemInv (sys.take_request request).1 := by
  unfold ElevatorSystem.take_request
  dsimp only
  have h1 := update_state_inv sys request.state request.timestamp h
  split
  case _ => exact h1
  case _ call heq =>
    split
    · exact h1
    · exact sys_take_call_inv _ _ h1

theorem mk_inv (n_elevators : Nat) (n_floors wait : Int) :
    SystemInv (mkElevatorSystem n_elevators n_floors wait) := by
  refine ⟨rfl, ?_⟩
  intro e hmem
  simp only [mkElevatorSystem, List.mem_map] at hmem
  obtain ⟨i, -, rfl⟩ := hmem
  exact ⟨rfl, fun hne => absurd rfl hne⟩

theorem reachable_inv (sys : ElevatorSystem) (h : Reachable sys) : SystemInv sys := by
  induction h with
  | init a b c h1 h2 => exact mk_inv a b c
  | step sys request hr ih => exact take_request_inv sys request ih

end Cencosud

namespace Cencosud

/-! ### The scan of `get_nearest_elevator` -/

theorem nearest_fold_spec (call : Call) (l : List Elevator) :
    ∀ (d : Int) (b : Elevator),
      (l.foldl
          (fun acc elevator =>
            let distance : Int := |elevator.floor - call.floor|
            if distance < acc.1 then (distance, elevator) else acc) (d, b) = (d, b) ∧
        ∀ e ∈ l, d ≤ |e.floor - call.floor|) ∨
      (∃ i, ∃ hi : i < l.length,
        l.foldl
            (fun acc elevator =>
              let distance : Int := |elevator.floor - call.floor|
              if distance < acc.1 then (distance, elevator) else acc) (d, b) =
          (|(l.get ⟨i, hi⟩).floor - call.floor|, l.get ⟨i, hi⟩) ∧
        |(l.get ⟨i, hi⟩).floor - call.floor| < d ∧
        (∀ j, ∀ hj : j < l.length,
          |(l.get ⟨i, hi⟩).floor - call.floor| ≤ |(l.get ⟨j, hj⟩).floor - call.floor|) ∧
        (∀ j, ∀ hj : j < l.length, j < i →
          |(l.get ⟨i, hi⟩).floor - call.floor| < |(l.get ⟨j, hj⟩).floor - call.floor|)) := by
  induction l with
  | nil =>
    intro d b
    left
    refine ⟨rfl, ?_⟩
    intro e he
    cases he
  | cons x xs ih =>
    intro d b
    by_cases hx : |x.floor - call.floor| < d
    · have hstep : (x :: xs).foldl
          (fun acc elevator =>
            let distance : Int := |elevator.floor - call.floor|
            if distance < acc.1 then (distance, elevator) else acc) (d, b) =
          xs.foldl
            (fun acc elevator =>
              let distance : Int := |elevator.floor - call.floor|
              if distance < acc.1 then (distance, elevator) else acc)
            (|x.floor - call.floor|, x) := by
        rw [List.foldl_cons]
        congr 1
        show (if |x.floor - call.floor| < d then (|x.floor - call.floor|, x) else (d, b)) = _
        rw [if_pos hx]
      rcases ih (|x.floor - call.floor|) x with ⟨heq, hall⟩ | ⟨i, hi, heq, hlt, hmin, hfirst⟩
      · right
        refine ⟨0, by simp, ?_, hx, ?_, ?_⟩
        · rw [hstep]
          exact heq
        · intro j hj
          cases j with
          | zero => exact le_refl _
          | succ j' =>
            have hj' : j' < xs.length := by simpa using hj
            have hm := hall (xs.get ⟨j', hj'⟩) (xs.get_mem j' hj')
            simpa using hm
        · intro j hj hj0
          exact absurd hj0 (Nat.not_lt_zero j)
      · right
        refine ⟨i + 1, by simpa using hi, ?_, lt_trans hlt hx, ?_, ?_⟩
        · rw [hstep]
          exact heq
        · intro j hj
          cases j with
          | zero => simpa using le_of_lt hlt
          | succ j' =>
            have hj' : j' < xs.length := by simpa using hj
            simpa using hmin j' hj'
        · intro j hj hj0
          cases j with
          | zero => simpa using hlt
          | succ j' =>
            have hj' : j' < xs.length := by simpa using hj
            have hj0' : j' < i := by omega
            simpa using hfirst j' hj' hj0'
    · have hstep : (x :: xs).foldl
          (fun acc elevator =>
            let distance : Int := |elevator.floor - call.floor|
            if distance < acc.1 then (distance, elevator) else acc) (d, b) =
          xs.foldl
            (fun acc elevator =>
              let distance : Int := |elevator.floor - call.floor|
              if distance < acc.1 then (distance, elevator) else acc) (d, b) := by
        rw [List.foldl_cons]
        congr 1
        show (if |x.floor - call.floor| < d then (|x.floor - call.floor|, x) else (d, b)) = _
        rw [if_neg hx]
      rcases ih d b with ⟨heq, hall⟩ | ⟨i, hi, heq, hlt, hmin, hfirst⟩
      · left
        refine ⟨by rw [hstep]; exact heq, ?_⟩
        intro e he
        rcases List.mem_cons.mp he with rfl | hexs
        · exact le_of_not_lt hx
        · exact hall e hexs
      · right
        refine ⟨i + 1, by simpa using hi, ?_, hlt, ?_, ?_⟩
        · rw [hstep]
          exact heq
        · intro j hj
          cases j with
          | zero =>
            have : (|(xs.get ⟨i, hi⟩).floor - call.floor|) ≤ d := le_of_lt hlt
            simpa using le_trans this (le_of_not_lt hx)
          | succ j' =>
            have hj' : j' < xs.length := by simpa using hj
            simpa using hmin j' hj'
        · intro j hj hj0
          cases j with
          | zero => simpa using lt_of_lt_of_le hlt (le_of_not_lt hx)
          | succ j' =>
            have hj' : j' < xs.length := by simpa using hj
            have hj0' : j' < i := by omega
            simpa using hfirst j' hj' hj0'

/-! ### Pointwise reading of the zip-based queue equality -/

theorem call_eqPy_refl (c : Call) : Call.eqPy c c = true := by
  simp [Call.eqPy]

theorem zip_self_all_eqPy (l : List Call) :
    (l.zip l).all (fun p => Call.eqPy p.1 p.2) = true := by
  induction l with
  | nil => rfl
  | cons c cs ih => simpa [List.zip_cons_cons, call_eqPy_refl] using ih

theorem queue_eqPy_refl (q : ElevatorQueue) : ElevatorQueue.eqPy q q = true :=
  zip_self_all_eqPy q.calls

end Cencosud

namespace Cencosud

/-! ### `n_floors` is never mutated -/

theorem take_call_n_floors (sys : ElevatorSystem) (call : Call) :
    (sys.take_call call).n_floors = sys.n_floors := by
  unfold ElevatorSystem.take_call
  dsimp only
  split <;> rfl

theorem update_state_n_floors (sys : ElevatorSystem) (state : Nat → Int)
    (timestamp : Int) :
    (sys.update_state state timestamp).n_floors = sys.n_floors := by
  unfold ElevatorSystem.update_state
  dsimp only
  split
  · rfl
  · split
    case _ call q heq => exact take_call_n_floors _ _
    case _ q heq => rfl

/-! ### Claim C1 -/

/-- Claim C1 counterexample: the cabin of `demoElevDown` travels downward with
a non-empty queue and the call `demoCallUp3` has the opposite sense, yet
`is_available_to_take_out_call` accepts it — contradicting the claimed
equivalence, which requires the senses to be equal. -/
theorem claim1_counterexample :
    demoElevDown.is_available_to_take_out_call demoCallUp3 = true ∧
    demoElevDown.queue.is_empty = false ∧
    demoElevDown.sense ≠ demoCallUp3.sense := by decide

/-- Claim C1 (amended): with an empty queue every OUT call is accepted; with a
non-empty queue the call is accepted iff (the cabin sense equals the call
sense and the cabin travels upward and its floor is at most the call floor)
or (the cabin travels downward and its floor is at least the call floor) —
because of the Python operator precedence, the sense-equality test guards
only the upward branch. -/
theorem claim1_out_call_admission (e : Elevator) (call : Call) :
    (e.queue.is_empty = true → e.is_available_to_take_out_call call = true) ∧
    (e.queue.is_empty = false →
      (e.is_available_to_take_out_call call = true ↔
        ((e.sense = call.sense ∧ e.sense = "upward" ∧ e.floor ≤ call.floor) ∨
         (e.sense = "downward" ∧ call.floor ≤ e.floor)))) := by
  constructor
  · intro hq
    simp [Elevator.is_available_to_take_out_call, hq]
  · intro hq
    simp [Elevator.is_available_to_take_out_call, hq, and_assoc, ge_iff_le]

/-- Witness for claim C1: a downward cabin at floor 5 with a non-empty queue
accepts a downward OUT call at floor 4, through the amended equivalence. -/
theorem claim1_out_call_admission_witness :
    demoElevDown.is_available_to_take_out_call
      { call_type := "out", floor := 4, sense := "downward" } = true :=
  ((claim1_out_call_admission demoElevDown
      { call_type := "out", floor := 4, sense := "downward" }).2 (by decide)).mpr
    (Or.inr ⟨by decide, by decide⟩)

/-! ### Claim C2 -/

/-- Claim C2 counterexample: after one request, the single elevator of
`demoSys1` travels downward while its queued call has sense upward (the cabin
sense points at the call floor, not at the call sense); after a second request
the same elevator flips from downward to upward while its queue stays
non-empty.  Both conjuncts of the claimed invariant fail on reachable
states. -/
theorem claim2_counterexample :
    Reachable demoSys1 ∧
    (∃ e ∈ demoSys1.elevators, ∃ c ∈ e.queue.calls, c.sense ≠ e.sense) ∧
    Reachable demoSys2 ∧
    demoSys2 = (demoSys1.take_request demoReq2).1 ∧
    (∃ e ∈ demoSys1.elevators, ∃ e2 ∈ demoSys2.elevators,
      e.elevator_id = e2.elevator_id ∧ e.queue.calls ≠ [] ∧ e2.queue.calls ≠ [] ∧
      e.sense = "downward" ∧ e2.sense = "upward") := by
  refine ⟨?_, by decide, ?_, rfl, by decide⟩
  · exact Reachable.step demoSys0 demoReq1
      (Reachable.init 1 10 10 (by decide) (by decide))
  · exact Reachable.step demoSys1 demoReq2
      (Reachable.step demoSys0 demoReq1
        (Reachable.init 1 10 10 (by decide) (by decide)))

/-- Claim C2 (amended): in every reachable state of an `ElevatorSystem`, an
elevator with a non-empty queue has a committed travel sense — `"upward"` or
`"downward"`, never the idle `""`.  (The queued calls need not share that
sense, and the sense may flip while the queue is non-empty, as the
counterexample shows.) -/
theorem claim2_queue_implies_sense_committed (sys : ElevatorSystem)
    (h : Reachable sys) :
    ∀ e ∈ sys.elevators, e.queue.calls ≠ [] →
      e.sense = "upward" ∨ e.sense = "downward" := by
  intro e he hne
  exact ((reachable_inv sys h).2 e he).2 hne

/-- Witness for claim C2: the reachable state `demoSys1` has an elevator with
a non-empty queue, and the theorem yields its committed sense. -/
theorem claim2_queue_implies_sense_committed_witness :
    (demoSys1.elevators.headD { elevator_id := 0 }).sense = "upward" ∨
    (demoSys1.elevators.headD { elevator_id := 0 }).sense = "downward" :=
  claim2_queue_implies_sense_committed demoSys1
    (Reachable.step demoSys0 demoReq1
      (Reachable.init 1 10 10 (by decide) (by decide)))
    (demoSys1.elevators.headD { elevator_id := 0 }) (by decide) (by decide)

/-! ### Claim C3 -/

/-- Claim C3 counterexample: the request `demoReqC3` carries a call floor
above `n_floors`, so `take_request` raises, yet the resulting state differs
from the initial one — the position tick moved the elevator from floor 1 to
floor 3 before the validation ran. -/
theorem claim3_counterexample :
    ((demoSys0.take_request demoReqC3).2).isSome = true ∧
    (demoSys0.take_request demoReqC3).1 ≠ demoSys0 ∧
    (∃ e ∈ (demoSys0.take_request demoReqC3).1.elevators, e.floor = 3) ∧
    (∀ e ∈ demoSys0.elevators, e.floor = 1) := by decide

/-- Claim C3 (amended): when the call floor exceeds `n_floors`,
`take_request` raises the invalid-argument error and the call is neither
assigned to an elevator nor pushed to the backlog; but the state tick has
already been applied, so the resulting state is exactly
`update_state state timestamp` of the old one — not the old state itself. -/
theorem claim3_oversized_floor_rejected_after_tick (sys : ElevatorSystem)
    (request : Request) (call : Call) (hcall : request.call = some call)
    (hfloor : call.floor > sys.n_floors) :
    sys.take_request request =
      (sys.update_state request.state request.timestamp,
       some "Call can not come from a floor greather than n_floors") := by
  unfold ElevatorSystem.take_request
  dsimp only
  rw [hcall]
  dsimp only
  rw [update_state_n_floors]
  rw [if_pos hfloor]

/-- Witness for claim C3: the concrete rejected request of the
counterexample ends in exactly the post-tick state and the error. -/
theorem claim3_oversized_floor_rejected_after_tick_witness :
    demoSys0.take_request demoReqC3 =
      (demoSys0.update_state demoReqC3.state demoReqC3.timestamp,
       some "Call can not come from a floor greather than n_floors") :=
  claim3_oversized_floor_rejected_after_tick demoSys0 demoReqC3
    { call_type := "out", floor := 100, sense := "upward" } rfl (by decide)

/-! ### Claim C4 -/

/-- Claim C4 counterexample: the empty queue compares equal to a queue holding
one call, because `zip` truncates to the shorter list and `all` over the empty
zip is vacuously true — contradicting the claim that queues of different
lengths are never equal. -/
theorem claim4_counterexample :
    ElevatorQueue.eqPy { is_empty := true, calls := [] }
      { is_empty := false, calls := [demoCallUp3] } = true ∧
    ({ is_empty := true, calls := [] } : ElevatorQueue).calls.length ≠
      ({ is_empty := false, calls := [demoCallUp3] } : ElevatorQueue).calls.length := by
  decide

/-- Claim C4 (amended): `ElevatorQueue.__eq__` holds iff the contained calls
are pairwise equal (by `Call.__eq__`) in order up to the length of the
shorter queue; queues of different lengths can therefore compare equal
whenever one content list extends the other. -/
theorem claim4_queue_eq_pointwise (q1 q2 : ElevatorQueue) :
    ElevatorQueue.eqPy q1 q2 = true ↔
      ∀ i, ∀ h1 : i < q1.calls.length, ∀ h2 : i < q2.calls.length,
        Call.eqPy (q1.calls.get ⟨i, h1⟩) (q2.calls.get ⟨i, h2⟩) = true := by
  unfold ElevatorQueue.eqPy
  rw [List.all_eq_true]
  constructor
  · intro h i h1 h2
    have hlen : i < (q1.calls.zip q2.calls).length := by
      rw [List.length_zip]
      exact lt_min h1 h2
    have hz : (q1.calls.zip q2.calls).get ⟨i, hlen⟩ =
        (q1.calls.get ⟨i, h1⟩, q2.calls.get ⟨i, h2⟩) := by
      simp [List.get_eq_getElem, List.getElem_zip]
    have hmem : (q1.calls.get ⟨i, h1⟩, q2.calls.get ⟨i, h2⟩) ∈
        q1.calls.zip q2.calls := by
      rw [← hz]
      exact (q1.calls.zip q2.calls).get_mem i hlen
    exact h _ hmem
  · intro h p hp
    obtain ⟨n, hn⟩ := List.mem_iff_get.mp hp
    have hz1 : (q1.calls.zip q2.calls).length ≤ q1.calls.length := by
      rw [List.length_zip]
      exact min_le_left _ _
    have hz2 : (q1.calls.zip q2.calls).length ≤ q2.calls.length := by
      rw [List.length_zip]
      exact min_le_right _ _
    have h1 : (n : Nat) < q1.calls.length := lt_of_lt_of_le n.2 hz1
    have h2 : (n : Nat) < q2.calls.length := lt_of_lt_of_le n.2 hz2
    have hp2 : p = (q1.calls.get ⟨(n : Nat), h1⟩, q2.calls.get ⟨(n : Nat), h2⟩) := by
      rw [← hn]
      simp [List.get_eq_getElem, List.getElem_zip]
    rw [hp2]
    exact h n h1 h2

/-- Witness for claim C4: two empty queues compare equal through the
pointwise characterisation (vacuously). -/
theorem claim4_queue_eq_pointwise_witness :
    ElevatorQueue.eqPy {} {} = true :=
  (claim4_queue_eq_pointwise {} {}).mpr
    (fun i h1 _ => absurd h1 (Nat.not_lt_zero i))

end Cencosud

namespace Cencosud

/-! ### Claim C5 -/

/-- Claim C5 counterexample: with `n_floors = 5` and candidates at floors 100
and 50 for a call at floor 1, every distance is at least the initial threshold
`n_floors`, so the scan never updates and returns the first candidate even
though the second one is strictly nearer — the returned elevator minimises
nothing. -/
theorem claim5_counterexample :
    demoSysC5.get_nearest_elevator [demoElevA, demoElevB] demoCallC5 = demoElevA ∧
    demoElevB ∈ [demoElevA, demoElevB] ∧
    |demoElevB.floor - demoCallC5.floor| < |demoElevA.floor - demoCallC5.floor| := by
  decide

/-- Claim C5 (amended): whenever every candidate is at distance strictly less
than `n_floors` from the call floor — in particular whenever all floors lie in
`[1, n_floors]` — `get_nearest_elevator` returns the first elevator of the
list minimising `|elevator.floor - call.floor|`: its distance is a lower
bound for all candidates and every earlier candidate is strictly farther. -/
theorem claim5_nearest_first_minimizer (sys : ElevatorSystem)
    (elevators : List Elevator) (call : Call) (hne : elevators ≠ [])
    (hlt : ∀ e ∈ elevators, |e.floor - call.floor| < sys.n_floors) :
    ∃ i, ∃ hi : i < elevators.length,
      sys.get_nearest_elevator elevators call = elevators.get ⟨i, hi⟩ ∧
      (∀ j, ∀ hj : j < elevators.length,
        |(elevators.get ⟨i, hi⟩).floor - call.floor| ≤
          |(elevators.get ⟨j, hj⟩).floor - call.floor|) ∧
      (∀ j, ∀ hj : j < elevators.length, j < i →
        |(elevators.get ⟨i, hi⟩).floor - call.floor| <
          |(elevators.get ⟨j, hj⟩).floor - call.floor|) := by
  rcases nearest_fold_spec call elevators sys.n_floors
      (elevators.headD { elevator_id := 0 }) with
    ⟨heq, hall⟩ | ⟨i, hi, heq, hlt2, hmin, hfirst⟩
  · obtain ⟨x, xs, rfl⟩ := List.exists_cons_of_ne_nil hne
    have h1 := hall x (List.mem_cons_self x xs)
    have h2 := hlt x (List.mem_cons_self x xs)
    exact absurd h2 (not_lt.mpr h1)
  · refine ⟨i, hi, ?_, hmin, hfirst⟩
    unfold ElevatorSystem.get_nearest_elevator
    rw [heq]

/-- Witness for claim C5: two candidates at distance 1 from the call floor
(a tie); the theorem returns the first minimiser. -/
theorem claim5_nearest_first_minimizer_witness :
    ∃ i, ∃ hi : i < ([demoElevNear, demoElevFar] : List Elevator).length,
      demoSysC5.get_nearest_elevator [demoElevNear, demoElevFar]
          { call_type := "out", floor := 3, sense := "upward" } =
        ([demoElevNear, demoElevFar] : List Elevator).get ⟨i, hi⟩ ∧
      (∀ j, ∀ hj : j < ([demoElevNear, demoElevFar] : List Elevator).length,
        |(([demoElevNear, demoElevFar] : List Elevator).get ⟨i, hi⟩).floor - (3 : Int)| ≤
          |(([demoElevNear, demoElevFar] : List Elevator).get ⟨j, hj⟩).floor - (3 : Int)|) ∧
      (∀ j, ∀ hj : j < ([demoElevNear, demoElevFar] : List Elevator).length, j < i →
        |(([demoElevNear, demoElevFar] : List Elevator).get ⟨i, hi⟩).floor - (3 : Int)| <
          |(([demoElevNear, demoElevFar] : List Elevator).get ⟨j, hj⟩).floor - (3 : Int)|) :=
  claim5_nearest_first_minimizer demoSysC5 [demoElevNear, demoElevFar]
    { call_type := "out", floor := 3, sense := "upward" } (by decide) (by decide)

/-! ### Claim C6 -/

/-- Claim C6 (confirmed): `is_available_to_take_in_call` accepts exactly when
the queue is non-empty, the elevator is the one named by the call, and the
tail call sense equals the incoming call sense; in particular an IN call is
never admissible on an empty queue. -/
theorem claim6_in_call_admission (e : Elevator) (call : Call)
    (hcons : e.queue.is_empty = e.queue.calls.isEmpty) :
    e.is_available_to_take_in_call call = true ↔
      (e.queue.calls ≠ [] ∧ some e.elevator_id = call.elevator_id ∧
        ∃ last_call, e.queue.calls.getLast? = some last_call ∧
          last_call.sense = call.sense) := by
  unfold Elevator.is_available_to_take_in_call
  cases hq : e.queue.is_empty with
  | true =>
    have hnil : e.queue.calls = [] := by
      rw [hq] at hcons
      exact List.isEmpty_iff.mp hcons.symm
    simp [hnil]
  | false =>
    have hne : e.queue.calls ≠ [] := by
      rw [hq] at hcons
      exact List.isEmpty_eq_false.mp hcons.symm
    obtain ⟨last0, hlast⟩ : ∃ c, e.queue.calls.getLast? = some c := by
      cases hl : e.queue.calls.getLast? with
      | none => exact absurd (List.getLast?_eq_none_iff.mp hl) hne
      | some c => exact ⟨c, rfl⟩
    simp only [hlast, Bool.false_eq_true, if_false]
    constructor
    · intro hb
      rw [Bool.and_eq_true, beq_iff_eq, beq_iff_eq] at hb
      exact ⟨hne, hb.1, last0, rfl, hb.2⟩
    · rintro ⟨-, hid, last1, hlast1, hsense⟩
      obtain rfl : last0 = last1 := Option.some.inj hlast1
      rw [Bool.and_eq_true, beq_iff_eq, beq_iff_eq]
      exact ⟨hid, hsense⟩

/-- Witness for claim C6: elevator 2 with an upward tail call accepts the
bound upward IN call. -/
theorem claim6_in_call_admission_witness :
    demoElevC6.is_available_to_take_in_call demoCallC6 = true :=
  (claim6_in_call_admission demoElevC6 demoCallC6 rfl).mpr
    ⟨by decide, rfl, { call_type := "out", floor := 6, sense := "upward" }, rfl, rfl⟩

/-! ### Claim C8 -/

/-- Claim C8 (confirmed): `append` adds the call (the new content is a
permutation of the old content plus the call), clears `is_empty`, and leaves
the calls sorted by floor descending when the incoming call sense is upward
(smallest floor at the tail) and ascending when it is downward. -/
theorem claim8_append_sorted (q : ElevatorQueue) (call : Call) :
    (q.append call).is_empty = false ∧
    ((q.append call).calls).Perm (q.calls ++ [call]) ∧
    (call.sense = "upward" →
      ((q.append call).calls).Pairwise fun a b => b.floor ≤ a.floor) ∧
    (call.sense = "downward" →
      ((q.append call).calls).Pairwise fun a b => a.floor ≤ b.floor) := by
  have hcalls : (q.append call).calls =
      sortCalls (callLe (call.sense == "upward")) (q.calls ++ [call]) := rfl
  refine ⟨rfl, ?_, ?_, ?_⟩
  · rw [hcalls]
    exact sortCalls_perm _ _
  · intro hs
    have hrev : (call.sense == "upward") = true := by simp [hs]
    rw [hcalls, hrev]
    have hp := sortCalls_pairwise (callLe true) (callLe_trans true)
      (callLe_total true) (q.calls ++ [call])
    refine hp.imp ?_
    intro a b hab
    simpa [callLe] using hab
  · intro hs
    have hrev : (call.sense == "upward") = false := by simp [hs]
    rw [hcalls, hrev]
    have hp := sortCalls_pairwise (callLe false) (callLe_trans false)
      (callLe_total false) (q.calls ++ [call])
    refine hp.imp ?_
    intro a b hab
    simpa [callLe] using hab

/-- Witness for claim C8: appending an upward call to the empty queue clears
the flag and yields a descending content list. -/
theorem claim8_append_sorted_witness :
    (({} : ElevatorQueue).append demoUpCall).is_empty = false ∧
    ((({} : ElevatorQueue).append demoUpCall).calls).Pairwise
      (fun a b => b.floor ≤ a.floor) :=
  ⟨(claim8_append_sorted {} demoUpCall).1,
   (claim8_append_sorted {} demoUpCall).2.2.1 rfl⟩

/-! ### Claim C9 -/

/-- Claim C9 counterexample: two personas born on day 0, one dying exactly on
day 6570 = birth + 18*365.  The claimed feasibility window
`[window_start, window_end]` is the single day 6570 and is non-empty, yet
`_sample_celebration_date` returns `None` (the code requires the start to be
strictly before the end), so the pair is rejected. -/
theorem claim9_counterexample :
    sample_celebration_date { nacimiento := 0, defuncion := some 6570 }
        { nacimiento := 0, defuncion := none } 9999 0 = none ∧
    window_start { nacimiento := 0, defuncion := some 6570 }
        { nacimiento := 0, defuncion := none } ≤
      window_end { nacimiento := 0, defuncion := some 6570 }
        { nacimiento := 0, defuncion := none } 9999 := by
  decide

/-- Claim C9 (amended): for personas whose recorded deaths do not exceed
`max_date` (as `_sample_personas` guarantees) and a PRNG draw inside the
window length, a candidate pair is accepted iff the window start is strictly
earlier than the window end (a single-day window is rejected), and every
accepted celebration date lies inside the window. -/
theorem claim9_celebration_window (persona_1 persona_2 : Persona)
    (max_date draw : Int)
    (hd1 : ∀ d, persona_1.defuncion = some d → d ≤ max_date)
    (hd2 : ∀ d, persona_2.defuncion = some d → d ≤ max_date)
    (hdraw0 : 0 ≤ draw)
    (hdraw1 : draw ≤ window_end persona_1 persona_2 max_date -
      window_start persona_1 persona_2) :
    (conyuge_accepted persona_1 persona_2 max_date draw = true ↔
      window_start persona_1 persona_2 < window_end persona_1 persona_2 max_date) ∧
    (∀ celebration,
      sample_celebration_date persona_1 persona_2 max_date draw = some celebration →
      window_start persona_1 persona_2 ≤ celebration ∧
        celebration ≤ window_end persona_1 persona_2 max_date) := by
  have hend : (match persona_1.defuncion, persona_2.defuncion with
      | none, none => max_date
      | some d1, none => d1
      | none, some d2 => d2
      | some d1, some d2 => min d1 d2) =
      window_end persona_1 persona_2 max_date := by
    unfold window_end
    cases h1 : persona_1.defuncion with
    | none =>
      cases h2 : persona_2.defuncion with
      | none => simp
      | some d2 =>
        have := hd2 d2 h2
        simp only [Option.getD_none, Option.getD_some]
        omega
    | some d1 =>
      have hle1 := hd1 d1 h1
      cases h2 : persona_2.defuncion with
      | none =>
        simp only [Option.getD_none, Option.getD_some]
        omega
      | some d2 =>
        have := hd2 d2 h2
        simp only [Option.getD_some]
        omega
  have hcore : sample_celebration_date persona_1 persona_2 max_date draw =
      (if window_start persona_1 persona_2 <
          window_end persona_1 persona_2 max_date then
        some (window_start persona_1 persona_2 + draw) else none) := by
    unfold sample_celebration_date sample_date window_start
    dsimp only
    rw [hend]
  constructor
  · have hacc : conyuge_accepted persona_1 persona_2 max_date draw =
        (sample_celebration_date persona_1 persona_2 max_date draw).isSome := rfl
    rw [hacc, hcore]
    by_cases hcond : window_start persona_1 persona_2 <
        window_end persona_1 persona_2 max_date
    · simp [hcond]
    · simp [hcond]
  · intro celebration hc
    rw [hcore] at hc
    by_cases hcond : window_start persona_1 persona_2 <
        window_end persona_1 persona_2 max_date
    · rw [if_pos hcond] at hc
      obtain rfl : window_start persona_1 persona_2 + draw = celebration :=
        Option.some.inj hc
      omega
    · rw [if_neg hcond] at hc
      exact absurd hc (by simp)

/-- Witness for claim C9: two personas born on day 0 with no recorded death
and `max_date` = 10000 give a window of 3430 days; the pair is accepted. -/
theorem claim9_celebration_window_witness :
    conyuge_accepted { nacimiento := 0, defuncion := none }
      { nacimiento := 0, defuncion := none } 10000 0 = true :=
  ((claim9_celebration_window { nacimiento := 0, defuncion := none }
      { nacimiento := 0, defuncion := none } 10000 0
      (fun d h => nomatch h) (fun d h => nomatch h)
      (by decide) (by decide)).1).mpr (by decide)

/-! ### Claim C10 -/

/-- Claim C10 (confirmed): `Elevator.__eq__` ignores the wait field — it
compares `self.wait` with itself — so two elevators agreeing on id, floor,
sense, queue and timestamp compare equal even with different waits. -/
theorem claim10_eq_ignores_wait (e1 e2 : Elevator)
    (hid : e1.elevator_id = e2.elevator_id) (hfloor : e1.floor = e2.floor)
    (hsense : e1.sense = e2.sense) (hqueue : e1.queue = e2.queue)
    (hts : e1.timestamp = e2.timestamp) (hwait : e1.wait ≠ e2.wait) :
    Elevator.eqPy e1 e2 = true := by
  unfold Elevator.eqPy
  rw [hid, hfloor, hsense, hqueue, hts]
  simp [queue_eqPy_refl]

/-- Witness for claim C10: two elevators identical except for waits 10 and 99
compare equal. -/
theorem claim10_eq_ignores_wait_witness :
    Elevator.eqPy { elevator_id := 3, wait := 10 } { elevator_id := 3, wait := 99 } =
      true :=
  claim10_eq_ignores_wait { elevator_id := 3, wait := 10 }
    { elevator_id := 3, wait := 99 } rfl rfl rfl rfl rfl (by decide)

end Cencosud

namespace Cencosud

/-! ### Claim C7 -/

/-- Claim C7 (confirmed): `update_position` sets the floor to the new
position; on an empty queue it does nothing else.  With a tail call, if the
new floor equals the tail floor the tail is attended exactly once (the attend
latch records the timestamp only when the call was still unattended,
otherwise it leaves the stored timestamp untouched); and the
answered-call-removal phase runs exactly when the (possibly just attended)
tail is attended and is either an IN call or an OUT call with
`now - tail.timestamp` strictly above `wait` — otherwise the state after the
floor update and the attend is returned unchanged. -/
theorem claim7_update_position (e : Elevator) (position timestamp : Int)
    (hcons : e.queue.is_empty = e.queue.calls.isEmpty) :
    (e.update_position position timestamp).floor = position ∧
    (e.queue.calls = [] →
      e.update_position position timestamp = { e with floor := position }) ∧
    (∀ tail0, e.queue.calls.getLast? = some tail0 →
      (position = tail0.floor →
        (tail0.attend timestamp).not_attended = false ∧
        (tail0.attend timestamp).timestamp =
          (if tail0.not_attended = true then some timestamp else tail0.timestamp)) ∧
      (∀ tail1,
        tail1 = (if position = tail0.floor then tail0.attend timestamp else tail0) →
        ((tail1.not_attended = false ∧
            (tail1.call_type = "in" ∨ e.wait < timestamp - tail1.timestamp.getD 0)) →
          e.update_position position timestamp =
            Elevator.remove_answered_calls
              { e with
                floor := position
                queue := { e.queue with
                  calls := e.queue.calls.dropLast ++ [tail1] } }) ∧
        (¬(tail1.not_attended = false ∧
            (tail1.call_type = "in" ∨ e.wait < timestamp - tail1.timestamp.getD 0)) →
          e.update_position position timestamp =
            { e with
              floor := position
              queue := { e.queue with
                calls := e.queue.calls.dropLast ++ [tail1] } }))) := by
  by_cases hq : e.queue.is_empty = true
  · have hnil : e.queue.calls = [] := by
      rw [hq] at hcons
      exact List.isEmpty_iff.mp hcons.symm
    have hres : e.update_position position timestamp = { e with floor := position } := by
      unfold Elevator.update_position
      dsimp only
      rw [if_pos hq]
    refine ⟨by rw [hres], fun _ => hres, ?_⟩
    intro tail0 hlast
    rw [hnil] at hlast
    simp at hlast
  · have hq' : e.queue.is_empty = false := by
      cases h2 : e.queue.is_empty
      · rfl
      · exact absurd h2 hq
    have hne : e.queue.calls ≠ [] := by
      rw [hq'] at hcons
      exact List.isEmpty_eq_false.mp hcons.symm
    obtain ⟨tail0, hlast⟩ : ∃ c, e.queue.calls.getLast? = some c := by
      cases hl : e.queue.calls.getLast? with
      | none => exact absurd (List.getLast?_eq_none_iff.mp hl) hne
      | some c => exact ⟨c, rfl⟩
    -- reduce update_position to the two-branch form
    have hstep : e.update_position position timestamp =
        (if (!(if (position == tail0.floor) = true then tail0.attend timestamp
              else tail0).not_attended &&
            ((if (position == tail0.floor) = true then tail0.attend timestamp
              else tail0).call_type == "in" ||
              decide (e.wait < timestamp -
                (if (position == tail0.floor) = true then tail0.attend timestamp
                 else tail0).timestamp.getD 0))) = true then
          Elevator.remove_answered_calls
            { e with
              floor := position
              queue := { e.queue with
                calls := e.queue.calls.dropLast ++
                  [if (position == tail0.floor) = true then tail0.attend timestamp
                   else tail0] } }
        else
          { e with
            floor := position
            queue := { e.queue with
              calls := e.queue.calls.dropLast ++
                [if (position == tail0.floor) = true then tail0.attend timestamp
                 else tail0] } }) := by
      unfold Elevator.update_position
      dsimp only
      rw [if_neg hq]
      simp only [hlast]
    have hfloor : (e.update_position position timestamp).floor = position := by
      rw [hstep]
      split <;> split <;>
        (first | rw [(remove_answered_calls_spec _).1] | rfl)
    refine ⟨hfloor, fun hnil => absurd hnil hne, ?_⟩
    intro tailx hlastx
    obtain rfl : tail0 = tailx := Option.some.inj (hlast ▸ hlastx)
    constructor
    · intro hpf
      unfold Call.attend
      cases hna : tail0.not_attended
      · simp [hna]
      · simp [hna]
    · intro tail1 htail1
      have hbool : ((position == tail0.floor) = true) = (position = tail0.floor) := by
        simp [beq_iff_eq]
      have htail1b : tail1 =
          (if (position == tail0.floor) = true then tail0.attend timestamp
           else tail0) := by
        rw [htail1]
        by_cases hpf : position = tail0.floor
        · rw [if_pos hpf, if_pos (by simp [hpf])]
        · rw [if_neg hpf, if_neg (by simp [hpf])]
      constructor
      · intro hguard
        have hg : (!tail1.not_attended && (tail1.call_type == "in" ||
            decide (e.wait < timestamp - tail1.timestamp.getD 0))) = true := by
          simp only [hguard.1, Bool.not_false, Bool.true_and, Bool.or_eq_true,
            beq_iff_eq, decide_eq_true_iff]
          exact hguard.2
        rw [hstep, ← htail1b, if_pos hg]
      · intro hguard
        have hg : ¬((!tail1.not_attended && (tail1.call_type == "in" ||
            decide (e.wait < timestamp - tail1.timestamp.getD 0))) = true) := by
          intro hcon
          apply hguard
          simp only [Bool.and_eq_true, Bool.or_eq_true, Bool.not_eq_true',
            beq_iff_eq, decide_eq_true_iff] at hcon
          exact hcon
        rw [hstep, ← htail1b, if_neg hg]

/-- Witness for claim C7: the elevator of `demoElevC7` moved to floor 5 at
time 100 indeed reports floor 5. -/
theorem claim7_update_position_witness :
    (demoElevC7.update_position 5 100).floor = 5 :=
  (claim7_update_position demoElevC7 5 100 rfl).1

end Cencosud
